import Mathlib

/-!
Verification development for the ai-video-gen repository.

The definitions below are shallow embeddings of the repository's code:
frontend hooks and pages (TypeScript/React) and the SQL schema under
supabase/migrations.  Machine floats (confidence scores, durations) are
modelled as rationals; JSON/jsx values irrelevant to the claims are kept
abstract.  Components of the system that live only in the backend (not
present in the repository snapshot) are modelled from the specification
and marked as such in their doc comments.
-/

namespace AiVideoGen

/-! ## Confidence tiers (frontend preferences page) -/

/-- The three confidence tiers named by the specification:
auto-applied (≥ 0.85), suggestion ([0.5, 0.85)), audit-only (< 0.5). -/
inductive ConfidenceTier
  | autoApplied
  | suggestion
  | auditOnly
  deriving DecidableEq, Repr

/-- Embeds `ConfidenceBadge` (preferences page): the colour class chosen for
a preference's confidence badge.  The code tests `confidence >= 0.85`,
then `confidence >= 0.5`, else falls through to the gray class. -/
def confidenceBadgeColor (confidence : ℚ) : String :=
  if 0.85 ≤ confidence then "bg-green-100 text-green-800"
  else if 0.5 ≤ confidence then "bg-yellow-100 text-yellow-800"
  else "bg-gray-100 text-gray-600"

/-- The tier the spec assigns to a confidence value (spec wording:
≥ 0.85 auto-applied, [0.5, 0.85) suggestion, < 0.5 audit only). -/
def specConfidenceTier (c : ℚ) : ConfidenceTier :=
  if 0.85 ≤ c then .autoApplied
  else if 0.5 ≤ c then .suggestion
  else .auditOnly

/-! ## Preference records (SQL schema 004 / usePreferences.ts types) -/

/-- Embeds a row of the `preferences` table (and the frontend
`Preference` interface): description, category, scope, optional
section_type / project_id qualifiers, confidence, provenance,
is_active flag, prompt_version. -/
structure Preference where
  preferenceId : String
  description : String
  category : String
  scope : String
  sectionType : Option String
  projectId : Option String
  confidence : ℚ
  sourceCorrections : List String
  isActive : Bool
  promptVersion : ℕ
  deriving DecidableEq, Repr, Inhabited

/-- Modelled from the spec: the backend computation of the preference
profile's `high_confidence` array (the auto-applied tier) is not under
src/ (the frontend only displays `profile.high_confidence`); the spec
assigns this tier to confidence ≥ 0.85. -/
def profileHighConfidence (prefs : List Preference) : List Preference :=
  prefs.filter (fun p => decide (0.85 ≤ p.confidence))

/-- Modelled from the spec: the backend computation of the preference
profile's `suggestions` array (the suggestion tier) is not under src/;
the spec assigns this tier to confidence in [0.5, 0.85). -/
def profileSuggestions (prefs : List Preference) : List Preference :=
  prefs.filter (fun p => decide (0.5 ≤ p.confidence ∧ p.confidence < 0.85))

/-! ## Preference store operations (C2) -/

/-- Modelled from the spec: the backend handler behind
`DELETE /api/feedback/preferences/{id}` (called by `deletePreference`
in usePreferences.ts and `handleDelete` on the preferences page) is not
under src/.  Per the spec, preferences are never hard-deleted: the
removal operation deactivates the record (`is_active = false`) and the
record itself persists. -/
def deletePreferenceOp (store : List Preference) (id : String) : List Preference :=
  store.map (fun p => if p.preferenceId = id then { p with isActive := false } else p)

/-- Embeds `createPreference` (usePreferences.ts): a new preference
record is added; existing records are untouched. -/
def createPreferenceOp (store : List Preference) (p : Preference) : List Preference :=
  store ++ [p]

/-- The partial update payload accepted by `updatePreference`
(usePreferences.ts): optional description, confidence, is_active. -/
structure PreferenceUpdate where
  description : Option String
  confidence : Option ℚ
  isActive : Option Bool
  deriving Repr

/-- Embeds `updatePreference` (usePreferences.ts): the matching record's
given fields are replaced; no record is removed. -/
def updatePreferenceOp (store : List Preference) (id : String) (u : PreferenceUpdate) :
    List Preference :=
  store.map (fun p =>
    if p.preferenceId = id then
      { p with
        description := u.description.getD p.description
        confidence := u.confidence.getD p.confidence
        isActive := u.isActive.getD p.isActive }
    else p)

/-! ## Scope / qualifier checks (C3) -/

/-- The category enumeration of the `preferences_category_check`
constraint (005_preferences migration). -/
def categoryEnum : List String := ["style", "structural", "content", "technical"]

/-- The scope enumeration of the `preferences_scope_check` constraint. -/
def scopeEnum : List String := ["global", "project", "section_type", "specific"]

/-- The section-type enumeration of the
`preferences_section_type_check` constraint. -/
def sectionTypeEnum : List String :=
  ["title", "slide", "code", "code_typing", "diagram", "summary"]

/-- Embeds `preferences_category_check`:
`CHECK (category IN ('style','structural','content','technical'))`. -/
def preferencesCategoryCheck (p : Preference) : Bool :=
  categoryEnum.contains p.category

/-- Embeds `preferences_scope_check`:
`CHECK (scope IN ('global','project','section_type','specific'))`. -/
def preferencesScopeCheck (p : Preference) : Bool :=
  scopeEnum.contains p.scope

/-- Embeds `preferences_section_type_check`:
`CHECK (section_type IS NULL OR section_type IN (...))`. -/
def preferencesSectionTypeCheck (p : Preference) : Bool :=
  match p.sectionType with
  | none => true
  | some t => sectionTypeEnum.contains t

/-- All row-level CHECK constraints of the `preferences` table. -/
def preferencesRowChecks (p : Preference) : Bool :=
  preferencesCategoryCheck p && preferencesScopeCheck p && preferencesSectionTypeCheck p

/-- The spec's scope/qualifier pairing invariant: `section_type` scope
carries a section_type qualifier, `specific` scope carries a project_id
qualifier, `global` scope carries neither. -/
def scopeQualifierInvariant (p : Preference) : Prop :=
  (p.scope = "section_type" → p.sectionType.isSome = true)
  ∧ (p.scope = "specific" → p.projectId.isSome = true)
  ∧ (p.scope = "global" → p.sectionType = none ∧ p.projectId = none)

instance (p : Preference) : Decidable (scopeQualifierInvariant p) := by
  unfold scopeQualifierInvariant; infer_instance

/-! ## The manual creation form (preferences page, `handleCreate`) -/

/-- The `newPref` state of the preferences page form. -/
structure NewPrefForm where
  description : String
  category : String
  scope : String
  sectionType : String
  confidence : ℚ
  deriving Repr

/-- The initial `newPref` state:
`{description: "", category: "style", scope: "global", section_type: "", confidence: 0.7}`. -/
def initialNewPref : NewPrefForm :=
  { description := "", category := "style", scope := "global"
    sectionType := "", confidence := 0.7 }

/-- The options offered by the form's category select. -/
def formCategoryOptions : List String := ["style", "structural", "content", "technical"]

/-- The options offered by the form's scope select. -/
def formScopeOptions : List String := ["global", "section_type", "project"]

/-- The options of the section-type select (including the empty
placeholder); the select itself is only rendered while
`newPref.scope === "section_type"`. -/
def formSectionTypeOptions : List String := ["", "title", "slide", "code", "summary"]

/-- User interactions with the creation form's inputs. -/
inductive FormEvent
  | setDescription (v : String)
  | setCategory (v : String)
  | setScope (v : String)
  | setSectionType (v : String)
  | setConfidence (v : ℚ)

/-- One form interaction applied to the form state.  Select elements can
only produce their offered options; the section-type select is only
rendered (hence can only fire) while scope is "section_type"; the
confidence slider is bounded to [0, 1].  Note that changing the scope
does not clear a previously chosen section_type. -/
def applyFormEvent (f : NewPrefForm) : FormEvent → NewPrefForm
  | .setDescription v => { f with description := v }
  | .setCategory v =>
      if formCategoryOptions.contains v then { f with category := v } else f
  | .setScope v =>
      if formScopeOptions.contains v then { f with scope := v } else f
  | .setSectionType v =>
      if f.scope = "section_type" && formSectionTypeOptions.contains v then
        { f with sectionType := v }
      else f
  | .setConfidence v =>
      if 0 ≤ v ∧ v ≤ 1 then { f with confidence := v } else f

/-- The form state reached from the initial state by a sequence of
interactions. -/
def runFormEvents (events : List FormEvent) : NewPrefForm :=
  events.foldl applyFormEvent initialNewPref

/-- Embeds `handleCreate` (preferences page): the create request sends
description, category, scope, `section_type: newPref.section_type ||
undefined` and confidence; the remaining record fields take the schema
defaults (no project_id, active, prompt_version 1). -/
def handleCreateRequest (f : NewPrefForm) : Preference :=
  { preferenceId := ""
    description := f.description
    category := f.category
    scope := f.scope
    sectionType := if f.sectionType = "" then none else some f.sectionType
    projectId := none
    confidence := f.confidence
    sourceCorrections := []
    isActive := true
    promptVersion := 1 }

/-! ## Script editor sections (project script page, StructuredScriptEditor) -/

/-- Embeds `ScriptSectionData` (script page): type, duration, narration,
visual_spec.  The code reads `s.duration || 0` defensively, so the
duration is modelled as optional; the visual_spec JSON object is kept
abstract as an optional opaque value. -/
structure ScriptSectionData where
  type : String
  duration : Option ℚ
  narration : String
  visualSpec : Option String
  deriving DecidableEq, Repr, Inhabited

/-- Embeds `deleteSection` (script page): refuses to drop the last
remaining section, otherwise removes the section at the given index
(`sections.filter((_, i) => i !== index)`). -/
def deleteSection (sections : List ScriptSectionData) (i : ℕ) : List ScriptSectionData :=
  if sections.length ≤ 1 then sections
  else sections.eraseIdx i

/-- Embeds `splitSectionAtPosition` (script page): rejects a cursor
position at the start or past the end of the narration, otherwise
replaces the section with the trimmed first half (keeping its fields)
and a fresh second half of duration 0
(`newSections.splice(index, 1, firstHalf, secondHalf)`). -/
def splitSectionAtPosition (sections : List ScriptSectionData) (i pos : ℕ) :
    List ScriptSectionData :=
  if pos = 0 ∨ (sections.getD i default).narration.length ≤ pos then sections
  else
    sections.take i
      ++ [{ (sections.getD i default) with
            narration :=
              (String.mk ((sections.getD i default).narration.toList.take pos)).trim },
          { type := (sections.getD i default).type
            narration :=
              (String.mk ((sections.getD i default).narration.toList.drop pos)).trim
            duration := some 0
            visualSpec := (sections.getD i default).visualSpec }]
      ++ sections.drop (i + 1)

/-- The adjacency check `sortedIndices[i] - sortedIndices[i-1] !== 1`
ran over the ascending selection: every neighbour differs by one. -/
def isConsecutive : List ℕ → Bool
  | a :: b :: rest => b = a + 1 && isConsecutive (b :: rest)
  | _ => true

/-- The positional filter `sections.filter((_, i) => !selected.has(i))`,
written with an explicit running index. -/
def filterNotSelected {α : Type} (selected : Finset ℕ) : ℕ → List α → List α
  | _, [] => []
  | i, x :: xs =>
    if i ∈ selected then filterNotSelected selected (i + 1) xs
    else x :: filterNotSelected selected (i + 1) xs

/-- The merged section built by `handleMergeSelected` from the selected
sections in index order: the first selection's type and visual_spec, the
summed durations (`reduce((sum, s) => sum + (s.duration || 0), 0)`), and
the narrations joined with a newline. -/
def mergedSection (toMerge : List ScriptSectionData) : ScriptSectionData :=
  { type := (toMerge.getD 0 default).type
    duration := some (toMerge.foldl (fun sum s => sum + s.duration.getD 0) 0)
    narration := String.intercalate "\n" (toMerge.map (fun s => s.narration))
    visualSpec := (toMerge.getD 0 default).visualSpec }

/-- Embeds `handleMergeSelected` (script page): requires at least two
selected sections with consecutive indices; the merged section replaces
them, spliced in at the first selected index after the selected
sections are filtered out. -/
def handleMergeSelected (sections : List ScriptSectionData) (selected : Finset ℕ) :
    List ScriptSectionData :=
  if selected.card < 2 then sections
  else if !isConsecutive (selected.sort (· ≤ ·)) then sections
  else
    (filterNotSelected selected 0 sections).insertIdx ((selected.sort (· ≤ ·)).headD 0)
      (mergedSection ((selected.sort (· ≤ ·)).map (fun i => sections.getD i default)))

/-- Embeds dnd-kit's `arrayMove` as used by `handleDragEnd`: the item is
removed from its old index and re-inserted at the new index. -/
def arrayMove (l : List ScriptSectionData) (fromIdx toIdx : ℕ) : List ScriptSectionData :=
  (l.eraseIdx fromIdx).insertIdx toIdx (l.getD fromIdx default)

/-- Embeds `handleDragEnd` (script page): when the dragged id differs
from the drop target's id the section list is reordered with
`arrayMove`; ids are positional (`section-${i}`), so distinct ids mean
distinct indices. -/
def handleDragEnd (sections : List ScriptSectionData) (activeIdx overIdx : ℕ) :
    List ScriptSectionData :=
  if activeIdx = overIdx then sections
  else arrayMove sections activeIdx overIdx

/-- The positional section indices (`sections.map((_, i) => i)`, the
basis of the `section-${i}` sortable ids): the ordering the editor
presents for any section list. -/
def sectionIndexList (sections : List ScriptSectionData) : List ℕ :=
  sections.enum.map (fun x => x.1)

/-! ## useUndoRedo hook -/

/-- The three state cells of `useUndoRedo`: past stack, present value,
future (redo) stack. -/
structure UndoRedoState (α : Type) where
  past : List α
  present : α
  future : List α
  deriving Repr, DecidableEq

/-- The hook's initial state: empty stacks around the initial value. -/
def useUndoRedoInit {α : Type} (initialState : α) : UndoRedoState α :=
  ⟨[], initialState, []⟩

/-- The hook's default `maxHistory` option. -/
def defaultMaxHistory : ℕ := 10

/-- Embeds `setState`: pushes the present onto the past (sliced down to
the most recent `maxHistory` entries when it would exceed the cap),
installs the new present, and clears the future stack. -/
def urSetState {α : Type} (maxHistory : ℕ) (newState : α) (st : UndoRedoState α) :
    UndoRedoState α :=
  let newPast := st.past ++ [st.present]
  { past :=
      if maxHistory < newPast.length then newPast.drop (newPast.length - maxHistory)
      else newPast
    present := newState
    future := [] }

/-- Embeds `undo`: with an empty past it does nothing; otherwise the
last past entry becomes present and the old present is pushed onto the
future stack. -/
def urUndo {α : Type} (st : UndoRedoState α) : UndoRedoState α :=
  match st.past.getLast? with
  | none => st
  | some previous => ⟨st.past.dropLast, previous, st.present :: st.future⟩

/-- Embeds `redo`: with an empty future it does nothing; otherwise the
first future entry becomes present and the old present is appended to
the past stack. -/
def urRedo {α : Type} (st : UndoRedoState α) : UndoRedoState α :=
  match st.future with
  | [] => st
  | next :: rest => ⟨st.past ++ [st.present], next, rest⟩

/-- Embeds `reset`: clears both stacks around a new initial value. -/
def urReset {α : Type} (newInitial : α) (_st : UndoRedoState α) : UndoRedoState α :=
  ⟨[], newInitial, []⟩

/-- The operations a consumer of the hook can perform. -/
inductive UROp (α : Type)
  | set (a : α)
  | undo
  | redo
  | reset (a : α)

/-- One hook operation applied to the hook state. -/
def urApply {α : Type} (maxHistory : ℕ) (st : UndoRedoState α) : UROp α → UndoRedoState α
  | .set a => urSetState maxHistory a st
  | .undo => urUndo st
  | .redo => urRedo st
  | .reset a => urReset a st

/-- The hook state after a sequence of operations from the initial
state. -/
def urRun {α : Type} (maxHistory : ℕ) (ops : List (UROp α)) (init : α) : UndoRedoState α :=
  ops.foldl (urApply maxHistory) (useUndoRedoInit init)

/-! ## Pipeline availability (narration page / compose page) -/

/-- Embeds `ComposeStatusResponse` (usePipeline hooks), restricted to
the fields the compose page reads for its decisions. -/
structure ComposeStatusResponse where
  can_compose : Bool
  ffmpeg_available : Bool
  deriving DecidableEq, Repr

/-- Embeds the narration page's `hasVisuals` gate: the
generate-narration button is rendered only when the project state is in
`["visuals_done", "narration_done", "composed"]`. -/
def narrationGenerateAvailable (state : String) : Bool :=
  ["visuals_done", "narration_done", "composed"].contains state

/-- Embeds the compose page's `canCompose` gate:
`status?.can_compose || project.state === "narration_done"`. -/
def composeCanCompose (status : Option ComposeStatusResponse) (state : String) : Bool :=
  (match status with | some s => s.can_compose | none => false) || (state == "narration_done")

/-- The error taxonomy entry for a premature stage transition. -/
inductive PipelineError
  | PrecursorMissing
  deriving DecidableEq, Repr

/-- Modelled from the spec: the backend guard behind
`POST .../generate-narration` is not under src/; per the spec a
transition whose upstream artifact is absent is rejected with
`PrecursorMissing`, and the frontend offers it exactly when
`narrationGenerateAvailable` holds. -/
def attemptGenerateNarration (state : String) : Except PipelineError Unit :=
  if narrationGenerateAvailable state then .ok () else .error .PrecursorMissing

/-- Modelled from the spec: the backend guard behind `POST .../compose`
is not under src/; the compose transition is offered exactly when
`composeCanCompose` holds and otherwise rejected with
`PrecursorMissing`. -/
def attemptCompose (status : Option ComposeStatusResponse) (state : String) :
    Except PipelineError Unit :=
  if composeCanCompose status state then .ok () else .error .PrecursorMissing

/-! ## Compose page rendering (C8) -/

/-- The compose-page elements whose presence the claims are about. -/
structure ComposePageView where
  composeButtonShown : Bool
  ffmpegWarningShown : Bool
  videoPreviewShown : Bool
  precursorNoticeShown : Bool
  deriving DecidableEq, Repr

/-- Embeds the compose page's conditional rendering: everything below
the header is inside the `canCompose` block; the ffmpeg warning renders
on `status && !status.ffmpeg_available`; the video preview renders only
when `videoUrl` is set; the "generate narration first" notice shows on
`!canCompose`. -/
def renderComposePage (status : Option ComposeStatusResponse) (state : String)
    (videoUrl : Option String) : ComposePageView :=
  let canC := composeCanCompose status state
  { composeButtonShown := canC
    ffmpegWarningShown :=
      canC && (match status with | some s => !s.ffmpeg_available | none => false)
    videoPreviewShown := canC && videoUrl.isSome
    precursorNoticeShown := !canC }

/-- Embeds the compose response fields `handleCompose` reads. -/
structure ComposeResponse where
  video_url : Option String
  deriving DecidableEq, Repr

/-- Embeds `handleCompose`'s state update: `videoUrl` is set only when
the response carries a `video_url`; otherwise the previous value is
kept. -/
def videoUrlAfterCompose (result : ComposeResponse) (prev : Option String) : Option String :=
  match result.video_url with
  | some u => some u
  | none => prev

/-! ## Dependency graph (C5) -/

/-- The five pipeline stage units of the fixed dependency map. -/
inductive StageUnit
  | script
  | narration
  | images
  | animations
  | composition
  deriving DecidableEq, Repr, Fintype

/-- Modelled from the spec: the DAG Tracker is not under src/.  The
static direct dependency map: narration, images and animations depend on
script; composition depends on all three. -/
def directDeps : StageUnit → List StageUnit
  | .script => []
  | .narration => [.script]
  | .images => [.script]
  | .animations => [.script]
  | .composition => [.narration, .images, .animations]

/-- Modelled from the spec: the transitive dependencies of a unit (the
graph has depth two, so two levels of the direct map suffice). -/
def transDeps (u : StageUnit) : List StageUnit :=
  (directDeps u ++ (directDeps u).flatMap directDeps).dedup

/-- A fixed topological order of the dependency map: script first,
composition last, the three independent middle units in between. -/
def topoOrder : List StageUnit :=
  [.script, .narration, .images, .animations, .composition]

/-- Modelled from the spec: `staleFrontier(changedUnits)` returns the
topologically-ordered closure of all units transitively dependent on a
changed unit. -/
def staleFrontier (changedUnits : Finset StageUnit) : List StageUnit :=
  topoOrder.filter (fun u => decide (∃ c ∈ changedUnits, c ∈ transDeps u))

/-! ## Correction log and evolution engine (C6) -/

/-- Embeds a row of the `corrections` table (003_corrections.sql),
restricted to the fields the evolution model reads. -/
structure CorrectionEvent where
  eventId : ℕ
  projectId : String
  stage : String
  category : String
  fieldPath : String
  priorValue : Option String
  newValue : Option String
  deriving DecidableEq, Repr

/-- Modelled from the spec: the Correction Log writer is not under src/
(003_corrections.sql declares the append-only table).  Append only ever
extends the log; nothing updates or deletes existing rows. -/
def appendCorrection (log : List CorrectionEvent) (e : CorrectionEvent) :
    List CorrectionEvent :=
  log ++ [e]

/-- The log produced by appending a sequence of corrections, one by one,
through the append-only interface. -/
def buildLog (events : List CorrectionEvent) : List CorrectionEvent :=
  events.foldl appendCorrection []

/-- The Evolution Engine's state: the derived preference projection and
the processed-marker cursor into the log. -/
structure EngineState where
  prefs : List Preference
  cursor : ℕ
  deriving DecidableEq, Repr

/-- Modelled from the spec: events are grouped by
`(category, scope-inferable-key)`; the field path serves as the key. -/
def groupKeys (batch : List CorrectionEvent) : List (String × String) :=
  (batch.map (fun e => (e.category, e.fieldPath))).dedup

/-- The number of corroborating events for a group key in a batch. -/
def keyCount (batch : List CorrectionEvent) (k : String × String) : ℕ :=
  (batch.filter (fun e => e.category == k.1 && e.fieldPath == k.2)).length

/-- Modelled from the spec: a bounded, diminishing reinforcement step
(the spec leaves the exact formula open as a tunable policy; any
deterministic bounded step witnesses the replay law). -/
def reinforceConfidence (c : ℚ) : ℚ := c + (1 - c) / 5

/-- Modelled from the spec: the initial confidence grows with group
size and is capped at 0.8 for a first inference. -/
def initialConfidence (count : ℕ) : ℚ := min ((2 : ℚ) / 5 + count / 10) (4 / 5)

/-- Modelled from the spec: one group processed by `evolve` — a group
below its evidence threshold (2 for the ambiguous `content` category) is
deferred; a group matching an existing preference reinforces it;
otherwise a new preference is created. -/
def applyGroup (batch : List CorrectionEvent) (st : EngineState) (k : String × String) :
    EngineState :=
  let count := keyCount batch k
  let threshold : ℕ := if k.1 == "content" then 2 else 1
  if count < threshold then st
  else if st.prefs.any (fun p => p.category == k.1 && p.description == k.2) then
    { st with
      prefs := st.prefs.map (fun p =>
        if p.category == k.1 && p.description == k.2 then
          { p with confidence := reinforceConfidence p.confidence }
        else p) }
  else
    { st with
      prefs := st.prefs ++ [{
        preferenceId := k.1 ++ ":" ++ k.2
        description := k.2
        category := k.1
        scope := "global"
        sectionType := none
        projectId := none
        confidence := initialConfidence count
        sourceCorrections := []
        isActive := true
        promptVersion := 1 }] }

/-- Modelled from the spec: `evolve(limit)` reads up to `limit`
unprocessed events past the cursor, processes each group, and advances
the cursor so repeated calls do not re-learn identical evidence. -/
def evolveRun (log : List CorrectionEvent) (limit : ℕ) (st : EngineState) : EngineState :=
  let batch := (log.drop st.cursor).take limit
  let st1 := (groupKeys batch).foldl (applyGroup batch) st
  { st1 with cursor := st.cursor + batch.length }

/-- Replaying the log through a schedule of Evolution Engine runs
(one `evolve(limit)` call per schedule entry) from the empty state. -/
def replayEngine (log : List CorrectionEvent) (runs : List ℕ) : EngineState :=
  runs.foldl (fun st limit => evolveRun log limit st) ⟨[], 0⟩

/-- The set of active preferences of an engine state. -/
def activePreferenceSet (st : EngineState) : Finset Preference :=
  (st.prefs.filter (fun p => p.isActive)).toFinset

/-- A concrete correction sequence (three style corrections on the same
field, as in the spec's dark-background scenario), used to instantiate
the replay law. -/
def demoCorrections : List CorrectionEvent :=
  [{ eventId := 1, projectId := "P", stage := "image", category := "style"
     fieldPath := "visual_spec.background", priorValue := some "white"
     newValue := some "dark" },
   { eventId := 2, projectId := "P", stage := "image", category := "style"
     fieldPath := "visual_spec.background", priorValue := some "white"
     newValue := some "dark" },
   { eventId := 3, projectId := "P", stage := "image", category := "style"
     fieldPath := "visual_spec.background", priorValue := some "light"
     newValue := some "dark" }]

/-- A concrete three-section script used to instantiate the editor
theorems. -/
def demoSections : List ScriptSectionData :=
  [{ type := "title", duration := some 4, narration := "intro", visualSpec := none },
   { type := "slide", duration := none, narration := "body", visualSpec := some "spec1" },
   { type := "code", duration := some 6, narration := "outro", visualSpec := some "spec2" }]

/-! ## Helper lemmas -/

theorem specConfidenceTier_auto_iff (c : ℚ) :
    specConfidenceTier c = ConfidenceTier.autoApplied ↔ 0.85 ≤ c := by
  unfold specConfidenceTier; split_ifs with h1 h2 <;> simp_all <;> intros <;> linarith

theorem specConfidenceTier_suggestion_iff (c : ℚ) :
    specConfidenceTier c = ConfidenceTier.suggestion ↔ 0.5 ≤ c ∧ c < 0.85 := by
  unfold specConfidenceTier; split_ifs with h1 h2 <;> simp_all <;> intros <;> linarith

theorem specConfidenceTier_audit_iff (c : ℚ) :
    specConfidenceTier c = ConfidenceTier.auditOnly ↔ c < 0.5 := by
  unfold specConfidenceTier; split_ifs with h1 h2 <;> simp_all <;> intros <;> linarith

theorem map_preserves_ids (f : Preference → Preference)
    (hf : ∀ r, (f r).preferenceId = r.preferenceId) (l : List Preference) :
    (l.map f).map (fun r => r.preferenceId) = l.map (fun r => r.preferenceId) := by
  induction l with
  | nil => rfl
  | cons x xs ih => simp [hf, ih]

theorem buildLog_foldl (es : List CorrectionEvent) :
    ∀ acc, es.foldl appendCorrection acc = acc ++ es := by
  induction es with
  | nil => intro acc; simp
  | cons e es ih => intro acc; simp [appendCorrection, ih]

theorem buildLog_eq (es : List CorrectionEvent) : buildLog es = es := by
  unfold buildLog; rw [buildLog_foldl]; rfl

theorem filterNotSelected_ge {α : Type} (a b : ℕ) (l : List α) :
    ∀ i, a ≤ i → filterNotSelected (Finset.Ico a b) i l = l.drop (b - i) := by
  induction l with
  | nil => intro i _; simp [filterNotSelected]
  | cons x xs ih =>
    intro i hi
    simp only [filterNotSelected]
    by_cases hmem : i ∈ Finset.Ico a b
    · rw [if_pos hmem, ih (i + 1) (le_trans hi (Nat.le_succ i))]
      have hib : i < b := (Finset.mem_Ico.mp hmem).2
      have hbi : b - i = (b - (i + 1)) + 1 := by omega
      rw [hbi, List.drop_succ_cons]
    · rw [if_neg hmem, ih (i + 1) (le_trans hi (Nat.le_succ i))]
      have hble : b ≤ i := by
        by_contra hlt
        exact hmem (Finset.mem_Ico.mpr ⟨hi, by omega⟩)
      have hz1 : b - i = 0 := by omega
      have hz2 : b - (i + 1) = 0 := by omega
      rw [hz1, hz2]
      simp

theorem filterNotSelected_Ico {α : Type} (a b : ℕ) (hab : a < b) (l : List α) :
    ∀ i, i ≤ a →
      filterNotSelected (Finset.Ico a b) i l = l.take (a - i) ++ l.drop (b - i) := by
  induction l with
  | nil => intro i _; simp [filterNotSelected]
  | cons x xs ih =>
    intro i hi
    simp only [filterNotSelected]
    by_cases hmem : i ∈ Finset.Ico a b
    · have hia : i = a := le_antisymm hi (Finset.mem_Ico.mp hmem).1
      subst hia
      rw [if_pos hmem, filterNotSelected_ge i b xs (i + 1) (Nat.le_succ i)]
      have h0 : i - i = 0 := by omega
      have hb : b - i = (b - (i + 1)) + 1 := by omega
      rw [h0, hb, List.drop_succ_cons]
      simp
    · have hia : i < a := by
        rcases Nat.lt_or_ge i a with h | h
        · exact h
        · have : i = a := le_antisymm hi h
          subst this
          exact absurd (Finset.mem_Ico.mpr ⟨le_refl i, hab⟩) hmem
      rw [if_neg hmem, ih (i + 1) (by omega)]
      have h1 : a - i = (a - (i + 1)) + 1 := by omega
      have h2 : b - i = (b - (i + 1)) + 1 := by omega
      rw [h1, h2, List.take_succ_cons, List.drop_succ_cons]
      simp

theorem consecutive_eq_range' :
    ∀ L : List ℕ, isConsecutive L = true → L = List.range' (L.headD 0) L.length
  | [], _ => rfl
  | [_], _ => by simp [List.range']
  | a :: b :: rest, h => by
    have hb : b = a + 1 ∧ isConsecutive (b :: rest) = true := by
      simpa [isConsecutive, Bool.and_eq_true] using h
    have ih := consecutive_eq_range' (b :: rest) hb.2
    simp only [List.headD_cons] at ih ⊢
    rw [List.length_cons, List.length_cons, List.range'_succ]
    congr 1
    rw [ih]
    simp only [List.length_cons]
    rw [hb.1]

theorem sort_consecutive_eq_Ico (selected : Finset ℕ)
    (hcons : isConsecutive (selected.sort (· ≤ ·)) = true) :
    selected = Finset.Ico ((selected.sort (· ≤ ·)).headD 0)
      (((selected.sort (· ≤ ·)).headD 0) + selected.card) := by
  have hL := consecutive_eq_range' (selected.sort (· ≤ ·)) hcons
  apply Finset.ext
  intro x
  rw [← Finset.mem_sort (α := ℕ) (· ≤ ·)]
  conv_lhs => rw [hL]
  rw [Finset.length_sort, List.mem_range'_1, Finset.mem_Ico]

theorem map_getD_range' {α : Type} [Inhabited α] (l : List α) :
    ∀ (k a : ℕ), a + k ≤ l.length →
      (List.range' a k).map (fun i => l.getD i default) = (l.drop a).take k := by
  intro k
  induction k with
  | zero => intro a _; simp
  | succ k ih =>
    intro a ha
    have haa : a < l.length := by omega
    rw [List.range'_succ, List.map_cons, ih (a + 1) (by omega),
      List.drop_eq_getElem_cons haa, List.take_succ_cons,
      List.getD_eq_getElem l default haa]

theorem insertIdx_append_length {α : Type} (l₁ l₂ : List α) (x : α) :
    (l₁ ++ l₂).insertIdx l₁.length x = l₁ ++ x :: l₂ := by
  induction l₁ with
  | nil => simp
  | cons y ys ih => simpa [List.insertIdx_succ_cons] using ih

theorem handleMergeSelected_applied (sections : List ScriptSectionData)
    (selected : Finset ℕ) (a k : ℕ)
    (ha : (selected.sort (· ≤ ·)).headD 0 = a) (hk : selected.card = k)
    (h2 : 2 ≤ k) (hcons : isConsecutive (selected.sort (· ≤ ·)) = true)
    (hvalid : ∀ j ∈ selected, j < sections.length) :
    handleMergeSelected sections selected
      = sections.take a ++ [mergedSection ((sections.drop a).take k)]
        ++ sections.drop (a + k) := by
  have hL : selected.sort (· ≤ ·) = List.range' a k := by
    have h := consecutive_eq_range' (selected.sort (· ≤ ·)) hcons
    rwa [ha, Finset.length_sort, hk] at h
  have hIco : selected = Finset.Ico a (a + k) := by
    have h := sort_consecutive_eq_Ico selected hcons
    rwa [ha, hk] at h
  have hbound : a + k ≤ sections.length := by
    have hmem : a + k - 1 ∈ selected := by
      rw [hIco, Finset.mem_Ico]; omega
    have := hvalid _ hmem
    omega
  have hfilter : filterNotSelected selected 0 sections
      = sections.take a ++ sections.drop (a + k) := by
    rw [hIco]
    have h := filterNotSelected_Ico a (a + k) (by omega) sections 0 (Nat.zero_le a)
    simpa using h
  unfold handleMergeSelected
  rw [if_neg (by omega), if_neg (by simp [hcons]), ha, hL,
    map_getD_range' sections k a hbound, hfilter]
  have hlen : (sections.take a).length = a := by
    rw [List.length_take]; exact min_eq_left (by omega)
  calc (sections.take a ++ sections.drop (a + k)).insertIdx a
        (mergedSection ((sections.drop a).take k))
      = (sections.take a ++ sections.drop (a + k)).insertIdx (sections.take a).length
        (mergedSection ((sections.drop a).take k)) := by rw [hlen]
    _ = sections.take a ++ mergedSection ((sections.drop a).take k)
          :: sections.drop (a + k) := insertIdx_append_length _ _ _
    _ = _ := by simp

theorem handleMergeSelected_applied_length (sections : List ScriptSectionData)
    (selected : Finset ℕ) (a k : ℕ)
    (ha : (selected.sort (· ≤ ·)).headD 0 = a) (hk : selected.card = k)
    (h2 : 2 ≤ k) (hcons : isConsecutive (selected.sort (· ≤ ·)) = true)
    (hvalid : ∀ j ∈ selected, j < sections.length) :
    (handleMergeSelected sections selected).length = sections.length - (k - 1) := by
  have hIco : selected = Finset.Ico a (a + k) := by
    have h := sort_consecutive_eq_Ico selected hcons
    rwa [ha, hk] at h
  have hbound : a + k ≤ sections.length := by
    have hmem : a + k - 1 ∈ selected := by
      rw [hIco, Finset.mem_Ico]; omega
    have := hvalid _ hmem
    omega
  rw [handleMergeSelected_applied sections selected a k ha hk h2 hcons hvalid]
  have hlen : (sections.take a).length = a := by
    rw [List.length_take]; exact min_eq_left (by omega)
  simp only [List.length_append, hlen, List.length_cons, List.length_nil,
    List.length_drop]
  omega

theorem perm_cons_getD_eraseIdx (l : List ScriptSectionData) (i : ℕ) (hi : i < l.length) :
    List.Perm l (l.getD i default :: l.eraseIdx i) := by
  rw [List.getD_eq_getElem l default hi, List.eraseIdx_eq_take_drop_succ]
  conv_lhs => rw [← List.take_append_drop i l, List.drop_eq_getElem_cons hi]
  exact List.perm_middle

theorem mergedSection_fields (sections : List ScriptSectionData) (a k : ℕ)
    (hk : 1 ≤ k) (hb : a + k ≤ sections.length) :
    mergedSection ((sections.drop a).take k)
      = { type := (sections.getD a default).type
          duration :=
            some ((((sections.drop a).take k).map (fun s => s.duration.getD 0)).sum)
          narration :=
            String.intercalate "\n" (((sections.drop a).take k).map (fun s => s.narration))
          visualSpec := (sections.getD a default).visualSpec } := by
  have ha : a < sections.length := by omega
  have hhead : ((sections.drop a).take k).getD 0 default = sections.getD a default := by
    rw [List.drop_eq_getElem_cons ha, List.getD_eq_getElem sections default ha]
    cases k with
    | zero => omega
    | succ k => rw [List.take_succ_cons, List.getD_cons_zero]
  unfold mergedSection
  rw [hhead]
  congr 1
  rw [List.sum_eq_foldl, List.foldl_map]

/-! ## C1 -/

/-- C1: every confidence value in [0,1] falls into exactly one of three
tiers with boundaries 0.85 and 0.5.  The ConfidenceBadge colour classes
correspond exactly to the auto-applied (≥ 0.85), suggestion
([0.5, 0.85)) and audit-only (< 0.5) tiers, and the profile's
high_confidence / suggestions split matches the first two tiers. -/
theorem confidence_three_tier_classification (c : ℚ) (h0 : 0 ≤ c) (h1 : c ≤ 1)
    (prefs : List Preference) (p : Preference) :
    (confidenceBadgeColor c = "bg-green-100 text-green-800"
      ↔ specConfidenceTier c = ConfidenceTier.autoApplied)
    ∧ (confidenceBadgeColor c = "bg-yellow-100 text-yellow-800"
      ↔ specConfidenceTier c = ConfidenceTier.suggestion)
    ∧ (confidenceBadgeColor c = "bg-gray-100 text-gray-600"
      ↔ specConfidenceTier c = ConfidenceTier.auditOnly)
    ∧ (specConfidenceTier c = ConfidenceTier.autoApplied ↔ 0.85 ≤ c)
    ∧ (specConfidenceTier c = ConfidenceTier.suggestion ↔ 0.5 ≤ c ∧ c < 0.85)
    ∧ (specConfidenceTier c = ConfidenceTier.auditOnly ↔ c < 0.5)
    ∧ (p ∈ profileHighConfidence prefs
      ↔ p ∈ prefs ∧ specConfidenceTier p.confidence = ConfidenceTier.autoApplied)
    ∧ (p ∈ profileSuggestions prefs
      ↔ p ∈ prefs ∧ specConfidenceTier p.confidence = ConfidenceTier.suggestion) := by
  refine ⟨?_, ?_, ?_, specConfidenceTier_auto_iff c, specConfidenceTier_suggestion_iff c,
    specConfidenceTier_audit_iff c, ?_, ?_⟩
  · rw [specConfidenceTier_auto_iff]
    unfold confidenceBadgeColor
    split_ifs with hA hB <;> simp_all
  · rw [specConfidenceTier_suggestion_iff]
    unfold confidenceBadgeColor
    split_ifs with hA hB <;> simp_all <;> intros <;> linarith
  · rw [specConfidenceTier_audit_iff]
    unfold confidenceBadgeColor
    split_ifs with hA hB <;> simp_all <;> intros <;> linarith
  · simp [profileHighConfidence, List.mem_filter, specConfidenceTier_auto_iff]
  · simp [profileSuggestions, List.mem_filter, specConfidenceTier_suggestion_iff]

/-- The spec's tier examples, via the classification theorem: 0.9 is
auto-applied, 0.7 a suggestion, 0.3 audit-only. -/
theorem confidence_three_tier_classification_witness :
    specConfidenceTier 0.9 = ConfidenceTier.autoApplied
    ∧ specConfidenceTier 0.7 = ConfidenceTier.suggestion
    ∧ specConfidenceTier 0.3 = ConfidenceTier.auditOnly := by
  refine ⟨?_, ?_, ?_⟩
  · exact (confidence_three_tier_classification 0.9 (by norm_num) (by norm_num)
      [] default).2.2.2.1.mpr (by norm_num)
  · exact (confidence_three_tier_classification 0.7 (by norm_num) (by norm_num)
      [] default).2.2.2.2.1.mpr (by norm_num)
  · exact (confidence_three_tier_classification 0.3 (by norm_num) (by norm_num)
      [] default).2.2.2.2.2.1.mpr (by norm_num)

/-! ## C2 -/

/-- C2: preferences are never hard-deleted.  The delete operation keeps
every record (same length, same ids in order), turning the matching
record inactive and leaving the rest untouched; update and create also
never erase an existing record. -/
theorem preferences_never_hard_deleted (store : List Preference) (id : String)
    (p q : Preference) (u : PreferenceUpdate) :
    ((deletePreferenceOp store id).map (fun r => r.preferenceId)
      = store.map (fun r => r.preferenceId))
    ∧ (deletePreferenceOp store id).length = store.length
    ∧ (p ∈ store → p.preferenceId = id →
        { p with isActive := false } ∈ deletePreferenceOp store id)
    ∧ (p ∈ store → p.preferenceId ≠ id → p ∈ deletePreferenceOp store id)
    ∧ (q ∈ deletePreferenceOp store id → q.preferenceId = id → q.isActive = false)
    ∧ ((updatePreferenceOp store id u).map (fun r => r.preferenceId)
      = store.map (fun r => r.preferenceId))
    ∧ (p ∈ store → p ∈ createPreferenceOp store q) := by
  refine ⟨?_, ?_, ?_, ?_, ?_, ?_, ?_⟩
  · exact map_preserves_ids _ (fun r => by by_cases h : r.preferenceId = id <;> simp [h]) store
  · simp [deletePreferenceOp]
  · intro hp hpid
    exact List.mem_map.2 ⟨p, hp, by simp [hpid]⟩
  · intro hp hpid
    exact List.mem_map.2 ⟨p, hp, by simp [hpid]⟩
  · intro hq hqid
    rcases List.mem_map.1 hq with ⟨a, _ha, rfl⟩
    by_cases h : a.preferenceId = id
    · simp [h]
    · simp [h] at hqid
  · exact map_preserves_ids _ (fun r => by by_cases h : r.preferenceId = id <;> simp [h]) store
  · intro hp; simp [createPreferenceOp]; exact Or.inl hp

/-- The delete operation on a concrete one-record store: the record
survives, deactivated. -/
theorem preferences_never_hard_deleted_witness :
    ({ preferenceId := "p1", description := "dark code background"
       category := "style", scope := "global", sectionType := none
       projectId := none, confidence := 0.9, sourceCorrections := []
       isActive := false, promptVersion := 1 } : Preference) ∈
      deletePreferenceOp
        [{ preferenceId := "p1", description := "dark code background"
           category := "style", scope := "global", sectionType := none
           projectId := none, confidence := 0.9, sourceCorrections := []
           isActive := true, promptVersion := 1 }] "p1" := by
  exact (preferences_never_hard_deleted
    [{ preferenceId := "p1", description := "dark code background"
       category := "style", scope := "global", sectionType := none
       projectId := none, confidence := 0.9, sourceCorrections := []
       isActive := true, promptVersion := 1 }] "p1"
    { preferenceId := "p1", description := "dark code background"
      category := "style", scope := "global", sectionType := none
      projectId := none, confidence := 0.9, sourceCorrections := []
      isActive := true, promptVersion := 1 }
    default ⟨none, none, none⟩).2.2.1 (by simp) rfl

/-! ## C5 -/

/-- C5: the stale frontier of any changed set containing script
includes narration, images, animations and composition; a changed set
containing narration yields composition but never script; script is
never in a frontier; and the frontier is topologically ordered, each of
narration/images/animations before composition. -/
theorem staleFrontier_closure_props (changed : Finset StageUnit) :
    (StageUnit.script ∈ changed →
      StageUnit.narration ∈ staleFrontier changed
      ∧ StageUnit.images ∈ staleFrontier changed
      ∧ StageUnit.animations ∈ staleFrontier changed
      ∧ StageUnit.composition ∈ staleFrontier changed)
    ∧ (StageUnit.narration ∈ changed → StageUnit.composition ∈ staleFrontier changed)
    ∧ StageUnit.script ∉ staleFrontier changed
    ∧ (∀ u, (u = StageUnit.narration ∨ u = StageUnit.images ∨ u = StageUnit.animations) →
        u ∈ staleFrontier changed → StageUnit.composition ∈ staleFrontier changed →
        (staleFrontier changed).indexOf u
          < (staleFrontier changed).indexOf StageUnit.composition) := by
  revert changed; decide

/-- The frontier of a changed script, via the closure theorem: all four
downstream units are stale and narration precedes composition. -/
theorem staleFrontier_closure_props_witness :
    StageUnit.composition ∈ staleFrontier {StageUnit.script}
    ∧ (staleFrontier {StageUnit.script}).indexOf StageUnit.narration
      < (staleFrontier {StageUnit.script}).indexOf StageUnit.composition := by
  refine ⟨((staleFrontier_closure_props {StageUnit.script}).1 (by decide)).2.2.2, ?_⟩
  exact (staleFrontier_closure_props {StageUnit.script}).2.2.2 StageUnit.narration
    (Or.inl rfl)
    ((staleFrontier_closure_props {StageUnit.script}).1 (by decide)).1
    ((staleFrontier_closure_props {StageUnit.script}).1 (by decide)).2.2.2

/-! ## C6 -/

/-- C6: the correction log is append-only (building a longer log never
rewrites the already-appended prefix), and replaying the same log
through identical Evolution Engine runs reproduces the same set of
active preferences. -/
theorem correction_log_replay_deterministic (events more events₂ : List CorrectionEvent)
    (runs runs₂ : List ℕ) :
    buildLog events = events
    ∧ (buildLog (events ++ more)).take events.length = buildLog events
    ∧ (events = events₂ → runs = runs₂ →
        activePreferenceSet (replayEngine (buildLog events) runs)
          = activePreferenceSet (replayEngine (buildLog events₂) runs₂)) := by
  refine ⟨buildLog_eq events, ?_, ?_⟩
  · rw [buildLog_eq, buildLog_eq, List.take_left]
  · rintro rfl rfl; rfl

/-- The replay law instantiated on the concrete dark-background
correction sequence. -/
theorem correction_log_replay_deterministic_witness :
    activePreferenceSet (replayEngine (buildLog demoCorrections) [50])
      = activePreferenceSet (replayEngine (buildLog demoCorrections) [50]) :=
  (correction_log_replay_deterministic demoCorrections [] demoCorrections
    [50] [50]).2.2 rfl rfl

/-! ## C7 -/

/-- C7: narration generation is offered exactly when the project state
is visuals_done, narration_done or composed, compose exactly when the
status reports can_compose or the state is narration_done; outside
those conditions the attempted transition is rejected with
PrecursorMissing. -/
theorem pipeline_precursor_gating (state : String) (status : Option ComposeStatusResponse) :
    (narrationGenerateAvailable state = true ↔
      state = "visuals_done" ∨ state = "narration_done" ∨ state = "composed")
    ∧ (attemptGenerateNarration state = Except.ok ()
      ↔ narrationGenerateAvailable state = true)
    ∧ (narrationGenerateAvailable state = false →
        attemptGenerateNarration state = Except.error PipelineError.PrecursorMissing)
    ∧ (composeCanCompose status state = true ↔
        (∃ s, status = some s ∧ s.can_compose = true) ∨ state = "narration_done")
    ∧ (attemptCompose status state = Except.ok ()
      ↔ composeCanCompose status state = true)
    ∧ (composeCanCompose status state = false →
        attemptCompose status state = Except.error PipelineError.PrecursorMissing) := by
  refine ⟨?_, ?_, ?_, ?_, ?_, ?_⟩
  · simp [narrationGenerateAvailable, List.contains]
  · cases h : narrationGenerateAvailable state <;> simp [attemptGenerateNarration, h]
  · intro h; simp [attemptGenerateNarration, h]
  · cases status <;> simp [composeCanCompose]
  · cases h : composeCanCompose status state <;> simp [attemptCompose, h]
  · intro h; simp [attemptCompose, h]

/-- The gates at concrete states: narration is offered at visuals_done
and compose is rejected at init with no backend status. -/
theorem pipeline_precursor_gating_witness :
    narrationGenerateAvailable "visuals_done" = true
    ∧ attemptCompose none "init" = Except.error PipelineError.PrecursorMissing := by
  refine ⟨?_, ?_⟩
  · exact (pipeline_precursor_gating "visuals_done" none).1.mpr (Or.inl rfl)
  · exact (pipeline_precursor_gating "init" none).2.2.2.2.2 (by decide)

/-! ## C8 -/

/-- C8: with ffmpeg unavailable the compose flow still offers the
compose action (the gate ignores the ffmpeg flag) and always renders
the degraded-mode notice, while the playable-video preview only ever
appears for an actually returned video_url. -/
theorem ffmpeg_degraded_mode_surfaced (status : Option ComposeStatusResponse)
    (s : ComposeStatusResponse) (state : String) (videoUrl : Option String)
    (result : ComposeResponse) :
    (status = some s → s.ffmpeg_available = false →
      composeCanCompose status state = true →
      (renderComposePage status state videoUrl).composeButtonShown = true
      ∧ (renderComposePage status state videoUrl).ffmpegWarningShown = true)
    ∧ ((renderComposePage status state videoUrl).videoPreviewShown = true →
        videoUrl.isSome = true)
    ∧ ((videoUrlAfterCompose result none).isSome = true → result.video_url.isSome = true)
    ∧ (composeCanCompose (some { can_compose := s.can_compose, ffmpeg_available := false })
        state = composeCanCompose (some s) state)
    ∧ (composeCanCompose status state = true → attemptCompose status state = Except.ok ()) := by
  refine ⟨?_, ?_, ?_, ?_, ?_⟩
  · rintro rfl h2 h3
    constructor
    · simpa [renderComposePage] using h3
    · simp [renderComposePage, h2, h3]
  · simp [renderComposePage]
  · cases h : result.video_url <;> simp [videoUrlAfterCompose, h]
  · rfl
  · intro h; simp [attemptCompose, h]

/-- The degraded mode at a concrete status: compose offered, notice
rendered, no playable preview. -/
theorem ffmpeg_degraded_mode_surfaced_witness :
    (renderComposePage (some { can_compose := true, ffmpeg_available := false })
      "script_done" none).ffmpegWarningShown = true :=
  ((ffmpeg_degraded_mode_surfaced
    (some { can_compose := true, ffmpeg_available := false })
    { can_compose := true, ffmpeg_available := false }
    "script_done" none { video_url := none }).1 rfl rfl (by decide)).2

/-! ## C3 -/

theorem contains_mem_string {l : List String} {v : String} (h : l.contains v = true) :
    v ∈ l := by
  simpa [List.contains] using h

theorem runFormEvents_fields (events : List FormEvent) :
    (runFormEvents events).category ∈ categoryEnum
    ∧ (runFormEvents events).scope ∈ scopeEnum
    ∧ ((runFormEvents events).sectionType = ""
        ∨ (runFormEvents events).sectionType ∈ sectionTypeEnum) := by
  suffices h : ∀ (f : NewPrefForm) (es : List FormEvent),
      f.category ∈ categoryEnum → f.scope ∈ scopeEnum →
      (f.sectionType = "" ∨ f.sectionType ∈ sectionTypeEnum) →
      (es.foldl applyFormEvent f).category ∈ categoryEnum
      ∧ (es.foldl applyFormEvent f).scope ∈ scopeEnum
      ∧ ((es.foldl applyFormEvent f).sectionType = ""
          ∨ (es.foldl applyFormEvent f).sectionType ∈ sectionTypeEnum) by
    exact h initialNewPref events (by simp [initialNewPref, categoryEnum])
      (by simp [initialNewPref, scopeEnum]) (Or.inl rfl)
  intro f es
  induction es generalizing f with
  | nil => intro hc hs ht; exact ⟨hc, hs, ht⟩
  | cons e es ih =>
    intro hc hs ht
    apply ih
    · cases e with
      | setCategory v =>
        simp only [applyFormEvent]
        split_ifs with h
        · exact contains_mem_string h
        · exact hc
      | setDescription v => exact hc
      | setScope v =>
        simp only [applyFormEvent]; split_ifs <;> exact hc
      | setSectionType v =>
        simp only [applyFormEvent]; split_ifs <;> exact hc
      | setConfidence v =>
        simp only [applyFormEvent]; split_ifs <;> exact hc
    · cases e with
      | setScope v =>
        simp only [applyFormEvent]
        split_ifs with h
        · have hv := contains_mem_string h
          simp [formScopeOptions] at hv
          rcases hv with rfl | rfl | rfl <;> simp [scopeEnum]
        · exact hs
      | setDescription v => exact hs
      | setCategory v =>
        simp only [applyFormEvent]; split_ifs <;> exact hs
      | setSectionType v =>
        simp only [applyFormEvent]; split_ifs <;> exact hs
      | setConfidence v =>
        simp only [applyFormEvent]; split_ifs <;> exact hs
    · cases e with
      | setSectionType v =>
        simp only [applyFormEvent]
        split_ifs with h
        · have hv0 := h
          rw [Bool.and_eq_true] at hv0
          have hv := contains_mem_string hv0.2
          simp [formSectionTypeOptions] at hv
          rcases hv with rfl | rfl | rfl | rfl | rfl
          · exact Or.inl rfl
          all_goals exact Or.inr (by simp [sectionTypeEnum])
        · exact ht
      | setDescription v => exact ht
      | setCategory v =>
        simp only [applyFormEvent]; split_ifs <;> exact ht
      | setScope v =>
        simp only [applyFormEvent]; split_ifs <;> exact ht
      | setConfidence v =>
        simp only [applyFormEvent]; split_ifs <;> exact ht

/-- C3 as stated is false on the code: the creation form can reach
scope "global" with a leftover section_type qualifier (choose the
section_type scope, pick "code", then switch the scope select back to
global); the request it then submits carries scope=global together with
section_type="code", passes every CHECK constraint of the preferences
table, and violates the scope/qualifier pairing. -/
theorem scope_qualifier_pairing_counterexample :
    preferencesRowChecks (handleCreateRequest (runFormEvents
      [FormEvent.setScope "section_type", FormEvent.setSectionType "code",
        FormEvent.setScope "global"])) = true
    ∧ (handleCreateRequest (runFormEvents
      [FormEvent.setScope "section_type", FormEvent.setSectionType "code",
        FormEvent.setScope "global"])).scope = "global"
    ∧ (handleCreateRequest (runFormEvents
      [FormEvent.setScope "section_type", FormEvent.setSectionType "code",
        FormEvent.setScope "global"])).sectionType = some "code"
    ∧ ¬ scopeQualifierInvariant (handleCreateRequest (runFormEvents
      [FormEvent.setScope "section_type", FormEvent.setSectionType "code",
        FormEvent.setScope "global"])) := by
  refine ⟨by decide, by decide, by decide, ?_⟩
  intro hinv
  have h := hinv.2.2 (by decide)
  exact absurd h.1 (by decide)

/-- C3 amended: the creation paths constrain each field to its
enumeration — the row checks pass exactly when category, scope and any
present section_type are in their enumerations, and every request the
manual form can produce passes them — but no creation path enforces the
scope/qualifier pairing itself. -/
theorem scope_qualifier_pairing_amended (p : Preference) (events : List FormEvent) :
    (preferencesRowChecks p = true ↔
      (p.category ∈ categoryEnum ∧ p.scope ∈ scopeEnum ∧
        ∀ t, p.sectionType = some t → t ∈ sectionTypeEnum))
    ∧ preferencesRowChecks (handleCreateRequest (runFormEvents events)) = true := by
  have hiff : ∀ q : Preference, preferencesRowChecks q = true ↔
      (q.category ∈ categoryEnum ∧ q.scope ∈ scopeEnum ∧
        ∀ t, q.sectionType = some t → t ∈ sectionTypeEnum) := by
    intro q
    unfold preferencesRowChecks preferencesCategoryCheck preferencesScopeCheck
      preferencesSectionTypeCheck
    cases h : q.sectionType <;>
      simp [List.contains, Bool.and_eq_true, h, and_assoc]
  refine ⟨hiff p, ?_⟩
  obtain ⟨hc, hs, ht⟩ := runFormEvents_fields events
  apply (hiff _).mpr
  refine ⟨hc, hs, ?_⟩
  intro t hteq
  unfold handleCreateRequest at hteq
  dsimp only at hteq
  rcases ht with h | h
  · rw [if_pos h] at hteq; exact absurd hteq (by simp)
  · by_cases he : (runFormEvents events).sectionType = ""
    · rw [if_pos he] at hteq; exact absurd hteq (by simp)
    · rw [if_neg he] at hteq
      obtain rfl : (runFormEvents events).sectionType = t := by
        simpa using hteq
      exact h

/-- The amended enforcement at a concrete request: an untouched form
submits a row passing every check. -/
theorem scope_qualifier_pairing_amended_witness :
    preferencesRowChecks (handleCreateRequest (runFormEvents [])) = true :=
  (scope_qualifier_pairing_amended default []).2

/-! ## C10 -/

theorem urRun_stack_sum {α : Type} (maxHistory : ℕ) (ops : List (UROp α))
    (st : UndoRedoState α) (h : st.past.length + st.future.length ≤ maxHistory) :
    (ops.foldl (urApply maxHistory) st).past.length
      + (ops.foldl (urApply maxHistory) st).future.length ≤ maxHistory := by
  induction ops generalizing st with
  | nil => exact h
  | cons op ops ih =>
    apply ih
    cases op with
    | set a =>
      simp only [urApply, urSetState]
      split_ifs with hlen
      · simp only [List.length_drop, List.length_nil, List.length_append,
          List.length_cons] at hlen ⊢
        omega
      · simp only [List.length_nil, List.length_append, List.length_cons] at hlen ⊢
        omega
    | undo =>
      simp only [urApply, urUndo]
      cases hl : st.past.getLast? with
      | none => simpa using h
      | some prev =>
        have hne : st.past ≠ [] := by
          intro hnil; rw [hnil] at hl; simp at hl
        have hpos : 1 ≤ st.past.length := List.length_pos.mpr hne
        simp only [List.length_dropLast, List.length_cons]
        omega
    | redo =>
      simp only [urApply, urRedo]
      cases hf : st.future with
      | nil => simpa using h
      | cons n rest =>
        rw [hf] at h
        simp only [List.length_append, List.length_cons, List.length_nil] at h ⊢
        omega
    | reset a => simp [urApply, urReset, useUndoRedoInit]

/-- C10: the useUndoRedo round-trip laws — setState then undo restores
the previous present, redo then restores the new state; undo with an
empty past and redo with an empty future change nothing; setState
clears the future stack; and along any operation sequence the past
stack never exceeds maxHistory (default 10). -/
theorem useUndoRedo_laws {α : Type} (maxHistory : ℕ) (hmax : 0 < maxHistory)
    (st : UndoRedoState α) (s : α) (ops : List (UROp α)) (a : α) :
    (urUndo (urSetState maxHistory s st)).present = st.present
    ∧ (urRedo (urUndo (urSetState maxHistory s st))).present = s
    ∧ (st.past = [] → urUndo st = st)
    ∧ (st.future = [] → urRedo st = st)
    ∧ (urSetState maxHistory s st).future = []
    ∧ (urRun maxHistory ops a).past.length ≤ maxHistory
    ∧ (urRun defaultMaxHistory ops a).past.length ≤ 10 := by
  have hlast : (urSetState maxHistory s st).past.getLast? = some st.present := by
    simp only [urSetState]
    split_ifs with hlen
    · rw [List.drop_append_of_le_length (by simp; omega)]
      exact List.getLast?_concat _
    · exact List.getLast?_concat _
  have hundo : urUndo (urSetState maxHistory s st)
      = ⟨(urSetState maxHistory s st).past.dropLast, st.present, [s]⟩ := by
    unfold urUndo
    rw [hlast]
    rfl
  refine ⟨?_, ?_, ?_, ?_, rfl, ?_, ?_⟩
  · rw [hundo]
  · rw [hundo]; rfl
  · intro h; unfold urUndo; rw [h]; rfl
  · intro h; unfold urRedo; rw [h]
  · have hb := urRun_stack_sum maxHistory ops (useUndoRedoInit a)
      (by simp [useUndoRedoInit])
    exact le_trans (Nat.le_add_right _ _) hb
  · have hb := urRun_stack_sum defaultMaxHistory ops (useUndoRedoInit a)
      (by simp [useUndoRedoInit])
    exact le_trans (Nat.le_add_right _ _) hb

/-- The round trip on a concrete two-step history over ℕ. -/
theorem useUndoRedo_laws_witness :
    (urUndo (urSetState 10 (1 : ℕ) (useUndoRedoInit 0))).present = 0
    ∧ (urRedo (urUndo (urSetState 10 (1 : ℕ) (useUndoRedoInit 0)))).present = 1 := by
  refine ⟨?_, ?_⟩
  · exact (useUndoRedo_laws 10 (by norm_num) (useUndoRedoInit 0) 1 [] 0).1
  · exact (useUndoRedo_laws 10 (by norm_num) (useUndoRedoInit 0) 1 [] 0).2.1

/-! ## C4 -/

/-- C4: after any structural edit — split at a cursor, merge of a
selection, delete, drag-and-drop reorder — the positional section
ordering is exactly 0..n-1 (no gaps, no duplicates), with the expected
cardinalities: split grows by one, delete shrinks by one, merge shrinks
by (selected - 1), reorder permutes without changing the length. -/
theorem section_ordering_contiguous (sections : List ScriptSectionData)
    (selected : Finset ℕ) (i pos fromIdx toIdx : ℕ) :
    (sectionIndexList (splitSectionAtPosition sections i pos)
        = List.range (splitSectionAtPosition sections i pos).length
      ∧ (sectionIndexList (splitSectionAtPosition sections i pos)).Nodup)
    ∧ (sectionIndexList (handleMergeSelected sections selected)
        = List.range (handleMergeSelected sections selected).length
      ∧ (sectionIndexList (handleMergeSelected sections selected)).Nodup)
    ∧ (sectionIndexList (deleteSection sections i)
        = List.range (deleteSection sections i).length
      ∧ (sectionIndexList (deleteSection sections i)).Nodup)
    ∧ (sectionIndexList (handleDragEnd sections fromIdx toIdx)
        = List.range (handleDragEnd sections fromIdx toIdx).length
      ∧ (sectionIndexList (handleDragEnd sections fromIdx toIdx)).Nodup)
    ∧ (∀ n, n ∈ sectionIndexList (handleDragEnd sections fromIdx toIdx)
        ↔ n < (handleDragEnd sections fromIdx toIdx).length)
    ∧ (i < sections.length → 0 < pos →
        pos < (sections.getD i default).narration.length →
        (splitSectionAtPosition sections i pos).length = sections.length + 1)
    ∧ (1 < sections.length → i < sections.length →
        (deleteSection sections i).length = sections.length - 1)
    ∧ (2 ≤ selected.card → isConsecutive (selected.sort (· ≤ ·)) = true →
        (∀ j ∈ selected, j < sections.length) →
        (handleMergeSelected sections selected).length
          = sections.length - (selected.card - 1))
    ∧ (fromIdx < sections.length → toIdx < sections.length →
        List.Perm (handleDragEnd sections fromIdx toIdx) sections
        ∧ (handleDragEnd sections fromIdx toIdx).length = sections.length) := by
  have hgen : ∀ l : List ScriptSectionData,
      sectionIndexList l = List.range l.length ∧ (sectionIndexList l).Nodup := by
    intro l
    have h : sectionIndexList l = List.range l.length := List.enum_map_fst l
    exact ⟨h, h ▸ List.nodup_range l.length⟩
  refine ⟨hgen _, hgen _, hgen _, hgen _, ?_, ?_, ?_, ?_, ?_⟩
  · intro n
    rw [(hgen _).1, List.mem_range]
  · intro hi hpos hlt
    unfold splitSectionAtPosition
    rw [if_neg (by omega)]
    have htake : (sections.take i).length = i := by
      rw [List.length_take]; exact min_eq_left (le_of_lt hi)
    simp only [List.length_append, htake, List.length_cons, List.length_nil,
      List.length_drop]
    omega
  · intro h1 hi
    unfold deleteSection
    rw [if_neg (by omega), List.length_eraseIdx, if_pos hi]
  · intro h2 hcons hvalid
    exact handleMergeSelected_applied_length sections selected _ _ rfl rfl h2 hcons hvalid
  · intro hf ht
    unfold handleDragEnd
    by_cases heq : fromIdx = toIdx
    · rw [if_pos heq]; exact ⟨List.Perm.refl _, rfl⟩
    · rw [if_neg heq]
      unfold arrayMove
      have hel : (sections.eraseIdx fromIdx).length = sections.length - 1 := by
        rw [List.length_eraseIdx, if_pos hf]
      have hto : toIdx ≤ (sections.eraseIdx fromIdx).length := by omega
      refine ⟨?_, ?_⟩
      · exact (List.perm_insertNth _ _ hto).trans
          (perm_cons_getD_eraseIdx sections fromIdx hf).symm
      · rw [List.length_insertIdx _ _ hto, hel]; omega

/-- The cardinality laws on the concrete three-section script. -/
theorem section_ordering_contiguous_witness :
    (splitSectionAtPosition demoSections 1 2).length = demoSections.length + 1
    ∧ (deleteSection demoSections 0).length = demoSections.length - 1
    ∧ List.Perm (handleDragEnd demoSections 0 2) demoSections := by
  refine ⟨?_, ?_, ?_⟩
  · exact (section_ordering_contiguous demoSections {0, 1} 1 2 0 2).2.2.2.2.2.1
      (by decide) (by decide) (by decide)
  · exact (section_ordering_contiguous demoSections {0, 1} 0 2 0 2).2.2.2.2.2.2.1
      (by decide) (by decide)
  · exact ((section_ordering_contiguous demoSections {0, 1} 1 2 0 2).2.2.2.2.2.2.2.2
      (by decide) (by decide)).1

/-! ## C9 -/

/-- C9: merging is a no-op unless at least two sections with
consecutive indices are selected; an applied merge replaces the
selected block at the first selected position by a single section
whose duration is the sum of the selected durations (missing counted
as 0), whose narration is the selected narrations joined with a
newline in index order, and whose type and visual_spec come from the
first selected section, shrinking the list by (selected - 1). -/
theorem merge_sections_spec (sections : List ScriptSectionData) (selected : Finset ℕ) :
    (selected.card < 2 → handleMergeSelected sections selected = sections)
    ∧ (isConsecutive (selected.sort (· ≤ ·)) = false →
        handleMergeSelected sections selected = sections)
    ∧ (2 ≤ selected.card → isConsecutive (selected.sort (· ≤ ·)) = true →
        (∀ j ∈ selected, j < sections.length) →
        handleMergeSelected sections selected
          = sections.take ((selected.sort (· ≤ ·)).headD 0)
            ++ [{ type := (sections.getD ((selected.sort (· ≤ ·)).headD 0) default).type
                  duration := some ((((sections.drop
                      ((selected.sort (· ≤ ·)).headD 0)).take selected.card).map
                      (fun s => s.duration.getD 0)).sum)
                  narration := String.intercalate "\n" (((sections.drop
                      ((selected.sort (· ≤ ·)).headD 0)).take selected.card).map
                      (fun s => s.narration))
                  visualSpec := (sections.getD ((selected.sort (· ≤ ·)).headD 0)
                    default).visualSpec }]
            ++ sections.drop ((selected.sort (· ≤ ·)).headD 0 + selected.card)
        ∧ (handleMergeSelected sections selected).length
            = sections.length - (selected.card - 1)) := by
  refine ⟨?_, ?_, ?_⟩
  · intro h; unfold handleMergeSelected; rw [if_pos h]
  · intro h
    unfold handleMergeSelected
    by_cases hc : selected.card < 2
    · rw [if_pos hc]
    · rw [if_neg hc, if_pos (by simp [h])]
  · intro h2 hcons hvalid
    obtain ⟨a, ha⟩ : ∃ x, (selected.sort (· ≤ ·)).headD 0 = x := ⟨_, rfl⟩
    obtain ⟨k, hk⟩ : ∃ x, selected.card = x := ⟨_, rfl⟩
    rw [ha, hk]
    rw [hk] at h2
    have hIco : selected = Finset.Ico a (a + k) := by
      have h := sort_consecutive_eq_Ico selected hcons
      rwa [ha, hk] at h
    have hbound : a + k ≤ sections.length := by
      have hmem : a + k - 1 ∈ selected := by
        rw [hIco, Finset.mem_Ico]; omega
      have := hvalid _ hmem
      omega
    refine ⟨?_, ?_⟩
    · rw [handleMergeSelected_applied sections selected a k ha hk h2 hcons hvalid,
        mergedSection_fields sections a k (by omega) hbound]
    · rw [handleMergeSelected_applied_length sections selected a k ha hk h2 hcons hvalid]

/-- The merge law on the concrete script: merging the first two
sections shrinks the list by one. -/
theorem merge_sections_spec_witness :
    (handleMergeSelected demoSections {0, 1}).length
      = demoSections.length - (({0, 1} : Finset ℕ).card - 1) := by
  have hsort : ({0, 1} : Finset ℕ).sort (· ≤ ·) = [0, 1] := by
    have he : ({0, 1} : Finset ℕ) = Finset.range 2 := by decide
    rw [he, Finset.sort_range]
    decide
  exact ((merge_sections_spec demoSections {0, 1}).2.2 (by decide)
    (by rw [hsort]; decide) (by decide)).2

end AiVideoGen
